import Mathlib

/-!
Verification of the EIYBrowse interaction-matrix access layer and track
layout engine, shallowly embedded from the Python sources.

Conventions used throughout this development:
* genomic coordinates and bin indices are natural numbers;
* matrix values are rationals; the floating-point "undefined" sentinel
  (numpy NaN) is modelled as `none` in `Option ℚ`, legitimate numeric
  values as `some q` — the sources use NaN purely as a sentinel that is
  distinguishable from every number, which `Option` captures exactly;
* Python exceptions are modelled with `Except`, one constructor per
  exception class that the relevant code paths can raise.
-/

namespace EIYBrowse

/-- Value stored in one matrix cell: `none` models the NaN sentinel. -/
abbrev Val : Type := Option ℚ

/-- One genomic window (bin), as parsed from a my5c column label
`source|assembly|chrom:start-stop` by `format_window`. -/
structure Window where
  chrom : String
  start : ℕ
  stop : ℕ
deriving DecidableEq

/-- A genomic query region (pybedtools Interval): chromosome plus a
half-open coordinate interval. -/
structure Region where
  chrom : String
  start : ℕ
  stop : ℕ
deriving DecidableEq

/-- Default window used with `List.getD`; indices are always in range
where it matters. -/
def dWindow : Window := ⟨"", 0, 0⟩

/-- Exceptions raised by the my5c folder store code paths.
`invalidRegion` is the ValueError of `My5cFile.index_from_interval`,
`invalidChrom` is InvalidChromError, `indexMissing` models the numpy
IndexError that escapes when the selection is empty but the chromosome
is known, `noFiles` and `tooManyFiles` are the two folder lookup
errors of `My5CFolder.find_chrom_file`. -/
inductive StoreErr where
  | invalidRegion
  | invalidChrom
  | indexMissing
  | noFiles
  | tooManyFiles
deriving DecidableEq

instance {ε α : Type} [DecidableEq ε] [DecidableEq α] : DecidableEq (Except ε α) := fun x y =>
  match x, y with
  | .error e, .error f => decidable_of_iff (e = f) (by simp)
  | .ok a, .ok b => decidable_of_iff (a = b) (by simp)
  | .error _, .ok _ => isFalse (fun h => Except.noConfusion h)
  | .ok _, .error _ => isFalse (fun h => Except.noConfusion h)

/-- The window-overlap test of `My5cFile.index_from_interval`: the
window stop exceeds the region start, the window start is below the
region stop, and the chromosomes agree. -/
def windowInRegion (w : Window) (r : Region) : Prop :=
  r.start < w.stop ∧ w.start < r.stop ∧ w.chrom = r.chrom

instance (w : Window) (r : Region) : Decidable (windowInRegion w r) :=
  inferInstanceAs (Decidable (_ ∧ _ ∧ _))

/-- Indices of all windows passing the overlap test, in ascending
order: the model of `np.nonzero(window_in_region)[0]`. -/
def coveredWindows (ws : List Window) (r : Region) : List ℕ :=
  (List.range ws.length).filter (fun i => decide (windowInRegion (ws.getD i dWindow) r))

/-- Model of `My5cFile.index_from_interval`: validate the region, select
the covered windows, and return the first covered index together with
the last covered index plus one.  When the selection is empty the code
raises InvalidChromError if the chromosome is unknown and otherwise
lets the out-of-range access `covered_windows[0]` fail (IndexError). -/
def indexFromInterval (ws : List Window) (r : Region) : Except StoreErr (ℕ × ℕ) :=
  if r.start < r.stop then
    match coveredWindows ws r with
    | [] =>
        if (ws.map Window.chrom).contains r.chrom then
          .error .indexMissing
        else
          .error .invalidChrom
    | a :: rest =>
        .ok (a, (a :: rest).getLast (List.cons_ne_nil a rest) + 1)
  else
    .error .invalidRegion

/-- Model of `My5cFile.indices_to_interval`: the region from the start
of the first window of the slice to the stop of the last window of the
slice, on the chromosome of the first window. -/
def indicesToInterval (ws : List Window) (start stop : ℕ) : Region :=
  ⟨(ws.getD start dWindow).chrom,
   (ws.getD start dWindow).start,
   (ws.getD (stop - 1) dWindow).stop⟩

/-- Hypothesis: windows of the same chromosome form a contiguous block
of the list (no other chromosome interleaved). -/
@[reducible] def chromGrouped (ws : List Window) : Prop :=
  ∀ k, k < ws.length → ∀ j, j ≤ k → ∀ i, i ≤ j →
    (ws.getD i dWindow).chrom = (ws.getD k dWindow).chrom →
    (ws.getD j dWindow).chrom = (ws.getD i dWindow).chrom

/-- Hypothesis: within one chromosome the windows are sorted by start
and mutually non-overlapping, so an earlier window ends at or before a
later window begins. -/
@[reducible] def chromSorted (ws : List Window) : Prop :=
  ∀ j, j < ws.length → ∀ i, i < j →
    (ws.getD i dWindow).chrom = (ws.getD j dWindow).chrom →
    (ws.getD i dWindow).stop ≤ (ws.getD j dWindow).start

/-- Hypothesis: every window is a genuine bin, with start before stop. -/
@[reducible] def windowsProper (ws : List Window) : Prop :=
  ∀ i, i < ws.length → (ws.getD i dWindow).start < (ws.getD i dWindow).stop

/-- The two-window scenario given in the specification: two adjacent
50kb bins on chr1. -/
def wsTwoBins : List Window := [⟨"chr1", 0, 50000⟩, ⟨"chr1", 50000, 100000⟩]

/-- Query covering both bins of `wsTwoBins` exactly. -/
def regTwoBins : Region := ⟨"chr1", 0, 100000⟩

/-- A single window starting after the query start: used to exhibit
edge behaviour of snapping. -/
def wsEdge : List Window := [⟨"chr1", 100, 200⟩]

/-- A query that begins before the first window of `wsEdge`. -/
def regEdge : Region := ⟨"chr1", 50, 150⟩

/-- Numpy-style slice `l[a:b]` of a list. -/
def sliceList {α : Type} (l : List α) (a b : ℕ) : List α := (l.drop a).take (b - a)

/-- Model of the square matrix slice `interactions[start:stop, start:stop]`. -/
def sliceMatrix (m : List (List Val)) (a b : ℕ) : List (List Val) :=
  (sliceList m a b).map (fun row => sliceList row a b)

/-- Parsed contents of one my5c file: the window list obtained from
the header labels and the dense interaction matrix. -/
structure My5cFileData where
  windows : List Window
  interactions : List (List Val)

/-- Model of `My5cFile.get_interactions`: resolve the indices via
`index_from_interval` and return the square matrix slice together
with the snapped region of `indices_to_interval`. -/
def getInteractions (f : My5cFileData) (r : Region) :
    Except StoreErr (List (List Val) × Region) :=
  match indexFromInterval f.windows r with
  | .error e => .error e
  | .ok (a, b) => .ok (sliceMatrix f.interactions a b, indicesToInterval f.windows a b)

/-- One file of a my5c folder.  The glob pattern match performed by
`find_chrom_file` is abstracted as a Boolean chromosome predicate on
the file; the parsed contents stand for what the `My5cFile`
constructor would load from disk. -/
structure FolderFile where
  matchesChrom : String → Bool
  data : My5cFileData

/-- Model of `My5CFolder`: the list of files present in the folder. -/
structure My5CFolder where
  files : List FolderFile

/-- The I/O steps performed by the folder store, in order: the glob
directory search of `find_chrom_file`, then the file parse performed
by the `My5cFile` constructor. -/
inductive IOEvent where
  | fileSearch
  | fileLoad
deriving DecidableEq

/-- Model of `My5CFolder.find_chrom_file`: more than one match raises
TooManyFilesError, no match raises NoFilesError, otherwise the single
match is returned. -/
def findChromFile (folder : My5CFolder) (chrom : String) : Except StoreErr FolderFile :=
  let found := folder.files.filter (fun f => f.matchesChrom chrom)
  if found.length > 1 then .error .tooManyFiles
  else
    match found with
    | [] => .error .noFiles
    | f :: _ => .ok f

/-- Model of `My5CFolder.interactions`, paired with the trace of I/O
events it performs in order: the file for the chromosome of the
region is located and loaded first, and only then is the region
handed to `get_interactions`, which validates it. -/
def folderInteractions (folder : My5CFolder) (r : Region) :
    List IOEvent × Except StoreErr (List (List Val) × Region) :=
  match findChromFile folder r.chrom with
  | .error e => ([.fileSearch], .error e)
  | .ok f => ([.fileSearch, .fileLoad], getInteractions f.data r)

/-- A folder with no files at all. -/
def emptyFolder : My5CFolder := ⟨[]⟩

/-- A folder holding exactly one file, matching every chromosome,
with the two-bin window set. -/
def oneFileFolder : My5CFolder :=
  ⟨[⟨fun _ => true, ⟨wsTwoBins, [[some 1, some 2], [some 2, some 3]]⟩⟩]⟩

/-- A degenerate query with start = stop. -/
def regDegenerate : Region := ⟨"chr1", 5, 5⟩

/-- One row of the per-chromosome pairwise value table of the SQL
store: columns (x, y, value). -/
structure DbRow where
  x : ℕ
  y : ℕ
  value : ℚ
deriving DecidableEq

/-- One row of the windows table of the SQL store:
columns (chrom, start, stop, i). -/
structure WindowRow where
  chrom : String
  start : ℕ
  stop : ℕ
  i : ℕ
deriving DecidableEq

/-- The SQL database: the windows table plus one pairwise table per
chromosome, modelled as a function from the chromosome name to the
rows of its table. -/
structure InteractionsDb where
  windows : List WindowRow
  tables : String → List DbRow

/-- The row with the greatest start among a list of window rows
(ORDER BY start DESC LIMIT 1); ties keep the earliest row. -/
def floorBinRow (rows : List WindowRow) : Option WindowRow :=
  rows.foldl
    (fun acc w =>
      match acc with
      | none => some w
      | some b => if b.start < w.start then some w else some b)
    none

/-- Model of `InteractionsDbFile.get_bin_from_location`: the bin index
whose start is the greatest start at or below the position, for the
given chromosome.  An empty result set makes the source fail on
`pos.values[0, 0]`; this is modelled as `none`. -/
def getBinFromLocation (db : InteractionsDb) (chrom : String) (pos : ℕ) : Option ℕ :=
  (floorBinRow (db.windows.filter
    (fun w => w.chrom == chrom && decide (w.start ≤ pos)))).map WindowRow.i

/-- Model of `InteractionsDbFile.get_location_from_bin`: start and stop
of the first windows-table row with the given index and chromosome
(LIMIT 1). -/
def getLocationFromBin (db : InteractionsDb) (chrom : String) (i : ℕ) : Option (ℕ × ℕ) :=
  ((db.windows.filter (fun w => w.i == i && w.chrom == chrom)).head?).map
    (fun w => (w.start, w.stop))

/-- Model of `InteractionsDbFile.bins_from_feature`: floor-lookup of
the bin containing the feature start and of the bin containing the
feature stop. -/
def binsFromFeature (db : InteractionsDb) (f : Region) : Option (String × ℕ × ℕ) := do
  let sb ← getBinFromLocation db f.chrom f.start
  let tb ← getBinFromLocation db f.chrom f.stop
  pure (f.chrom, sb, tb)

/-- The row selection of `InteractionsDbFile.get_data_from_bins`: all
rows of the chromosome table with x and y both between start and stop
inclusive (the SQL uses two-sided <=). -/
def selectedRows (db : InteractionsDb) (chrom : String) (s t : ℕ) : List DbRow :=
  (db.tables chrom).filter
    (fun row => decide (s ≤ row.x) && decide (row.x ≤ t) &&
      decide (s ≤ row.y) && decide (row.y ≤ t))

/-- Ascending list of the distinct values of a list: the level values
of the pandas MultiIndex produced by set_index, as laid out by
unstack (sorted unique labels). -/
def sortedDedup (l : List ℕ) : List ℕ :=
  List.insertionSort (· ≤ ·) l.dedup

/-- The dense matrix produced by the unstack pivot, plus its row and
column labels.  The flat list is the row-major flattened array. -/
structure PivotMatrix where
  rowLabels : List ℕ
  colLabels : List ℕ
  flat : List Val

/-- Value of the pivot at labels (x, y): the value of the first
selected row with those indices, or the NaN sentinel when no selected
row has them. -/
def pivotCell (rows : List DbRow) (x y : ℕ) : Val :=
  (rows.find? (fun row => row.x == x && row.y == y)).map DbRow.value

/-- Model of `InteractionsDbFile.get_data_from_bins`: select the rows,
pivot them into a dense matrix whose row labels are the distinct x
values and whose column labels are the distinct y values, then apply
the flat-stride diagonal masking `data_array.flat[0 : N*N : N+1] =
NaN` with N the number of matrix rows. -/
def getDataFromBins (db : InteractionsDb) (chrom : String) (s t : ℕ) : PivotMatrix :=
  let sel := selectedRows db chrom s t
  let xs := sortedDedup (sel.map DbRow.x)
  let ys := sortedDedup (sel.map DbRow.y)
  let N := xs.length
  let C := ys.length
  let flat := (List.range (N * C)).map
    (fun k =>
      if k % (N + 1) == 0 && decide (k < N * N) then none
      else pivotCell sel (xs.getD (k / C) 0) (ys.getD (k % C) 0))
  ⟨xs, ys, flat⟩

/-- Cell of the pivot matrix at labels (x, y): `none` when the pair is
absent from the matrix entirely, `some cell` when present (where the
cell itself is `none` exactly when it holds the NaN sentinel). -/
def pivotLookup (m : PivotMatrix) (x y : ℕ) : Option Val :=
  if x ∈ m.rowLabels ∧ y ∈ m.colLabels then
    m.flat[m.rowLabels.indexOf x * m.colLabels.length + m.colLabels.indexOf y]?
  else none

/-- Model of `InteractionsDbFile.feature_from_bins`: region from the
start of the start bin to the stop of the stop bin. -/
def featureFromBins (db : InteractionsDb) (chrom : String) (sb tb : ℕ) : Option Region := do
  let l ← getLocationFromBin db chrom sb
  let r ← getLocationFromBin db chrom tb
  pure ⟨chrom, l.1, r.2⟩

/-- Model of `InteractionsDbFile.interactions`: resolve bins, build the
pivot matrix, and return it with the resolved region. -/
def dbInteractions (db : InteractionsDb) (f : Region) : Option (PivotMatrix × Region) := do
  let bins ← binsFromFeature db f
  let nf ← featureFromBins db bins.1 bins.2.1 bins.2.2
  pure (getDataFromBins db bins.1 bins.2.1 bins.2.2, nf)

/-- Windows table with three 100bp bins on chr1. -/
def dbWindows3 : List WindowRow :=
  [⟨"chr1", 0, 100, 0⟩, ⟨"chr1", 100, 200, 1⟩, ⟨"chr1", 200, 300, 2⟩]

/-- Sparse store for the C3 scenario: only the pairs (0,0) and (2,2)
have rows; bin 1 has no rows at all. -/
def dbSparse : InteractionsDb :=
  ⟨dbWindows3, fun c => if c = "chr1" then [⟨0, 0, 5⟩, ⟨2, 2, 7⟩] else []⟩

/-- Query region resolving to bins 0 through 2 of `dbWindows3`. -/
def regDb : Region := ⟨"chr1", 0, 250⟩

/-- Store where bin 1 occurs in no row as an x index, so the pivot has
row labels [0, 2] but column labels [0, 1, 2]. -/
def dbRect : InteractionsDb :=
  ⟨dbWindows3,
   fun c => if c = "chr1" then
      [⟨0, 0, 10⟩, ⟨0, 1, 11⟩, ⟨0, 2, 12⟩, ⟨2, 0, 13⟩, ⟨2, 1, 14⟩, ⟨2, 2, 15⟩]
    else []⟩

/-- Worker for the numpy flat-stride write: walking the flattened
array with a running flat index, every position whose flat index is
divisible by the stride is overwritten with the NaN sentinel. -/
def fillDiagonalAux (step : ℕ) : ℕ → List Val → List Val
  | _, [] => []
  | idx, v :: rest =>
      (if idx % step = 0 then none else v) :: fillDiagonalAux step (idx + 1) rest

/-- Model of `np.fill_diagonal(data, np.NaN)` on a square n-by-n
array, as used by `SquareInteractionsTrack._plot`: numpy performs the
flat write `a.flat[0 : : n+1] = NaN` on the row-major flattened
array. -/
def fillDiagonal (m : List Val) (n : ℕ) : List Val := fillDiagonalAux (n + 1) 0 m

/-- Read cell (i, j) of a row-major flattened n-column matrix. -/
def getCell (m : List Val) (n i j : ℕ) : Val := m.getD (i * n + j) none

/-- The constant bias that `rotate_heatmap` adds to the whole array
before resampling, so that rotation background (rendered as 0) can be
told apart from data. -/
def heatmapBias : ℚ := 100

/-- Bias step of `rotate_heatmap`: `data.copy() + 100` maps every
numeric cell v to v + 100 and leaves NaN cells NaN. -/
def biasCell (v : Val) : Val := v.map (fun q => q + heatmapBias)

/-- One pixel of the rotated, cropped canvas before the zero test:
either a background pixel introduced by the rotation/crop (which PIL
renders as the numeric value 0), or a resampled pixel carrying some
value derived from the biased data (NaN when the resampler propagated
the sentinel).  The PIL resize and rotate resampling itself is
abstracted; the pipeline steps around it are modelled exactly. -/
inductive RotPixel where
  | background
  | resampled (v : Val)

/-- Numeric value of a canvas pixel as read back by `np.array(rot)`:
background pixels read as 0. -/
def renderPixel : RotPixel → Val
  | .background => some 0
  | .resampled v => v

/-- The final steps of `rotate_heatmap` on each pixel:
`rot[rot == 0.] = np.NAN` (a NaN cell never compares equal to 0),
then `rot -= 100.` (NaN minus 100 stays NaN). -/
def unbiasCell (v : Val) : Val :=
  match v with
  | none => none
  | some q => if q = 0 then none else some (q - heatmapBias)

/-- Composition applied to each canvas pixel after rotation and crop. -/
def rotateFinalize (p : RotPixel) : Val := unbiasCell (renderPixel p)

/-- Finite values of a flattened matrix: `A[np.isfinite(A)]` masks
out the NaN sentinel. -/
def finiteVals (A : List Val) : List ℚ := A.filterMap id

/-- Ascending sort of a list of rationals. -/
def sortAsc (l : List ℚ) : List ℚ := List.insertionSort (· ≤ ·) l

/-- Numpy percentile with the default linear interpolation: the
sample position h = q (n-1) / 100 interpolates between the order
statistics at positions floor h and floor h + 1 (clamped to the last
position). -/
def percentile (xs : List ℚ) (q : ℚ) : ℚ :=
  let s := sortAsc xs
  let n := s.length
  let pos : ℚ := q * ((n : ℚ) - 1) / 100
  let lo : ℕ := (Int.floor pos).toNat
  let hi : ℕ := min (lo + 1) (n - 1)
  s.getD lo 0 + (pos - (lo : ℚ)) * (s.getD hi 0 - s.getD lo 0)

/-- The symmetric quantile pair of `get_quantile_scaled_normalizer`:
`qmin, qmax = sorted([quantile, 100. - quantile])`. -/
def qpair (q : ℚ) : ℚ × ℚ :=
  if q ≤ 100 - q then (q, 100 - q) else (100 - q, q)

/-- The vmin/vmax state of a matplotlib normalizer object. -/
structure NormState where
  vmin : Option ℚ
  vmax : Option ℚ
deriving DecidableEq

/-- Model of `QuantileScaled.autoscale_None`: when the array is
nonempty, vmin and then vmax are overwritten with the qmin-th and
qmax-th percentiles of the finite values of the array; the data array
itself is never modified.  (The parent autoscale_None is a no-op
afterwards because both limits are set.) -/
def autoscaleNone (A : List Val) (q : ℚ) (st : NormState) : NormState :=
  let qm := qpair q
  let st1 :=
    if 0 < A.length then { st with vmin := some (percentile (finiteVals A) qm.1) } else st
  if 0 < A.length then { st1 with vmax := some (percentile (finiteVals A) qm.2) } else st1

/-- One application of the percentile clipping stage to a pair of
(matrix, normalizer state): the matrix passes through unmodified and
the state is autoscaled from it. -/
def clipForPlotting (p : List Val × NormState) (q : ℚ) : List Val × NormState :=
  (p.1, autoscaleNone p.1 q p.2)

/-- Worker for the layout allocation loop of `Browser.get_axes`: the
running line index is advanced by each declared row count, producing
one (rowOffset, rowSpan) frame per declaration. -/
def getAxesFrames : ℕ → List ℕ → List (ℕ × ℕ)
  | _, [] => []
  | lineIndex, c :: rest => (lineIndex, c) :: getAxesFrames (lineIndex + c) rest

/-- Model of `Browser.get_axes`: the total grid height is the sum of
the declared row counts, and each track receives a frame allocated by
`subplot2grid((total, 1), (lineIndex, 0), rowspan = rows)` with the
line index accumulated in declaration order with zero gap. -/
def getAxes (configs : List ℕ) : ℕ × List (ℕ × ℕ) :=
  (configs.sum, getAxesFrames 0 configs)

lemma mem_coveredWindows {ws : List Window} {r : Region} {i : ℕ} :
    i ∈ coveredWindows ws r ↔ i < ws.length ∧ windowInRegion (ws.getD i dWindow) r := by
  simp [coveredWindows, List.mem_filter, List.mem_range]

lemma coveredWindows_sorted (ws : List Window) (r : Region) :
    List.Pairwise (· < ·) (coveredWindows ws r) :=
  (List.pairwise_lt_range _).filter _

lemma pairwise_lt_head_le {a x : ℕ} {t : List ℕ}
    (hp : List.Pairwise (· < ·) (a :: t)) (hx : x ∈ a :: t) : a ≤ x := by
  rcases List.mem_cons.mp hx with rfl | hxt
  · exact le_refl x
  · exact le_of_lt ((List.pairwise_cons.mp hp).1 x hxt)

lemma pairwise_lt_le_getLast :
    ∀ {l : List ℕ}, List.Pairwise (· < ·) l → ∀ {x : ℕ}, x ∈ l →
      ∀ (h : l ≠ []), x ≤ l.getLast h := by
  intro l
  induction l with
  | nil => intro _ x hx; cases hx
  | cons a t ih =>
    intro hp x hx hne
    rcases List.mem_cons.mp hx with rfl | hxt
    · cases t with
      | nil => simp [List.getLast]
      | cons b t2 =>
        rw [List.getLast_cons (List.cons_ne_nil b t2)]
        exact le_of_lt ((List.pairwise_cons.mp hp).1 _ (List.getLast_mem _))
    · cases t with
      | nil => cases hxt
      | cons b t2 =>
        rw [List.getLast_cons (List.cons_ne_nil b t2)]
        exact ih (List.pairwise_cons.mp hp).2 hxt _

/-- Under grouped, sorted, non-overlapping proper windows, the set of
covered window indices is contiguous. -/
lemma covered_contiguous {ws : List Window} {r : Region}
    (hgrp : chromGrouped ws) (hsort : chromSorted ws) (hproper : windowsProper ws)
    {i j k : ℕ} (hi : i ∈ coveredWindows ws r) (hk : k ∈ coveredWindows ws r)
    (hij : i ≤ j) (hjk : j ≤ k) : j ∈ coveredWindows ws r := by
  obtain ⟨hilen, hi2⟩ := mem_coveredWindows.mp hi
  obtain ⟨histop, histart, hichrom⟩ :
      r.start < (ws.getD i dWindow).stop ∧ (ws.getD i dWindow).start < r.stop ∧
        (ws.getD i dWindow).chrom = r.chrom := hi2
  obtain ⟨hklen, hk2⟩ := mem_coveredWindows.mp hk
  obtain ⟨hkstop, hkstart, hkchrom⟩ :
      r.start < (ws.getD k dWindow).stop ∧ (ws.getD k dWindow).start < r.stop ∧
        (ws.getD k dWindow).chrom = r.chrom := hk2
  have hjlen : j < ws.length := lt_of_le_of_lt hjk hklen
  have hik : (ws.getD i dWindow).chrom = (ws.getD k dWindow).chrom := by
    rw [hichrom, hkchrom]
  have hjchrom : (ws.getD j dWindow).chrom = r.chrom :=
    (hgrp k hklen j hjk i hij hik).trans hichrom
  refine mem_coveredWindows.mpr ⟨hjlen, ?_, ?_, hjchrom⟩
  · rcases Nat.eq_or_lt_of_le hij with rfl | hlt
    · exact histop
    · have h1 : (ws.getD i dWindow).stop ≤ (ws.getD j dWindow).start :=
        hsort j hjlen i hlt (by rw [hichrom, hjchrom])
      have h2 : (ws.getD j dWindow).start < (ws.getD j dWindow).stop := hproper j hjlen
      omega
  · rcases Nat.eq_or_lt_of_le hjk with rfl | hlt
    · exact hkstart
    · have h1 : (ws.getD j dWindow).stop ≤ (ws.getD k dWindow).start :=
        hsort k hklen j hlt (by rw [hjchrom, hkchrom])
      have h2 : (ws.getD j dWindow).start < (ws.getD j dWindow).stop := hproper j hjlen
      omega

/-- Successful runs of `indexFromInterval` come from a valid region and
a nonempty covered-window list, returning its head and its last element
plus one. -/
lemma indexFromInterval_ok {ws : List Window} {r : Region} {a b : ℕ}
    (h : indexFromInterval ws r = .ok (a, b)) :
    r.start < r.stop ∧ ∃ rest, coveredWindows ws r = a :: rest ∧
      b = (a :: rest).getLast (List.cons_ne_nil a rest) + 1 := by
  unfold indexFromInterval at h
  split at h
  · rename_i hlt
    split at h
    · split at h <;> exact Except.noConfusion h
    · rename_i a' rest heq
      simp only [Except.ok.injEq, Prod.mk.injEq] at h
      obtain ⟨rfl, rfl⟩ := h
      exact ⟨hlt, rest, heq, rfl⟩
  · exact Except.noConfusion h

section Sanity

/- Scenario from the specification: two adjacent 50kb windows, query
covering both. -/

example :
    indexFromInterval
      [⟨"chr1", 0, 50000⟩, ⟨"chr1", 50000, 100000⟩]
      ⟨"chr1", 0, 100000⟩ = .ok (0, 2) := by decide

example :
    indicesToInterval
      [⟨"chr1", 0, 50000⟩, ⟨"chr1", 50000, 100000⟩] 0 2
      = ⟨"chr1", 0, 100000⟩ := by decide

example :
    indexFromInterval [⟨"chr1", 100, 200⟩] ⟨"chr1", 50, 150⟩ = .ok (0, 1) := by decide

example :
    indexFromInterval [⟨"chr1", 100, 200⟩] ⟨"chr1", 150, 150⟩ = .error .invalidRegion := by
  decide

example :
    indexFromInterval [⟨"chr1", 100, 200⟩] ⟨"chr2", 120, 150⟩ = .error .invalidChrom := by
  decide

example :
    indexFromInterval [⟨"chr1", 100, 200⟩] ⟨"chr1", 300, 400⟩ = .error .indexMissing := by
  decide

example : binsFromFeature dbSparse regDb = some ("chr1", 0, 2) := by decide

example : pivotLookup (getDataFromBins dbSparse "chr1" 0 2) 1 1 = none := by decide

example : pivotLookup (getDataFromBins dbSparse "chr1" 0 2) 0 2 = some none := by decide

example : (getDataFromBins dbRect "chr1" 0 2).rowLabels = [0, 2] := by decide

example : (getDataFromBins dbRect "chr1" 0 2).colLabels = [0, 1, 2] := by decide

example : pivotLookup (getDataFromBins dbRect "chr1" 0 2) 2 0 = some none := by decide

example : pivotLookup (getDataFromBins dbRect "chr1" 0 2) 2 2 = some (some 15) := by decide

example : featureFromBins dbRect "chr1" 0 2 = some ⟨"chr1", 0, 300⟩ := by decide

end Sanity

/-- C1: for every chromosome-grouped, per-chromosome sorted and
non-overlapping window set of proper windows, and every region on
which `index_from_interval` succeeds with `(a, b)`, the result is an
exact half-open characterization of the overlap selection: `a < b ≤
length`, and window index `i` lies in `[a, b)` precisely when window
`i` passes the overlap test `w.stop > r.start ∧ w.start < r.stop ∧
w.chrom = r.chrom`.  In particular `a` is the smallest selected index
and `b` is the largest selected index plus one. -/
theorem index_from_interval_selects_exactly (ws : List Window) (r : Region)
    (hgrp : chromGrouped ws) (hsort : chromSorted ws) (hproper : windowsProper ws)
    (a b : ℕ) (hok : indexFromInterval ws r = .ok (a, b)) :
    a < b ∧ b ≤ ws.length ∧
      ∀ i, i < ws.length →
        ((a ≤ i ∧ i < b) ↔ windowInRegion (ws.getD i dWindow) r) := by
  obtain ⟨hlt, rest, heq, hb⟩ := indexFromInterval_ok hok
  have hpw : List.Pairwise (· < ·) (a :: rest) := by
    rw [← heq]; exact coveredWindows_sorted ws r
  have hmemIff : ∀ x : ℕ, x ∈ a :: rest ↔
      (x < ws.length ∧ windowInRegion (ws.getD x dWindow) r) := by
    intro x; rw [← heq]; exact mem_coveredWindows
  have hLmem : (a :: rest).getLast (List.cons_ne_nil a rest) ∈ a :: rest :=
    List.getLast_mem _
  have haMem : a ∈ a :: rest := List.mem_cons_self a rest
  have haMemCov : a ∈ coveredWindows ws r := by rw [heq]; exact haMem
  have hLmemCov : (a :: rest).getLast (List.cons_ne_nil a rest) ∈ coveredWindows ws r := by
    rw [heq]; exact hLmem
  have haL : a ≤ (a :: rest).getLast (List.cons_ne_nil a rest) :=
    pairwise_lt_head_le hpw hLmem
  have hLlen : (a :: rest).getLast (List.cons_ne_nil a rest) < ws.length :=
    ((hmemIff _).mp hLmem).1
  refine ⟨by omega, by omega, ?_⟩
  intro i hilen
  constructor
  · rintro ⟨hai, hib⟩
    have hiL : i ≤ (a :: rest).getLast (List.cons_ne_nil a rest) := by omega
    have hmem : i ∈ coveredWindows ws r :=
      covered_contiguous hgrp hsort hproper haMemCov hLmemCov hai hiL
    exact (mem_coveredWindows.mp hmem).2
  · intro hwin
    have hiMem : i ∈ a :: rest := (hmemIff i).mpr ⟨hilen, hwin⟩
    have h1 : a ≤ i := pairwise_lt_head_le hpw hiMem
    have h2 : i ≤ (a :: rest).getLast (List.cons_ne_nil a rest) :=
      pairwise_lt_le_getLast hpw hiMem _
    omega

/-- Witness for C1 at the two-window scenario of the specification:
the query covering both bins yields indices (0, 2) and the half-open
characterization holds there. -/
theorem index_from_interval_selects_exactly_witness :
    indexFromInterval wsTwoBins regTwoBins = .ok (0, 2) ∧
      (0 < 2 ∧ 2 ≤ wsTwoBins.length ∧
        ∀ i, i < wsTwoBins.length →
          ((0 ≤ i ∧ i < 2) ↔ windowInRegion (wsTwoBins.getD i dWindow) regTwoBins)) :=
  ⟨by decide,
   index_from_interval_selects_exactly wsTwoBins regTwoBins
     (by decide) (by decide) (by decide) 0 2 (by decide)⟩

/-- C2 counterexample: on the sorted, non-overlapping, proper window
set `wsEdge` the valid query `chr1:50-150` succeeds with indices
(0, 1), yet the resolved region `chr1:100-200` does not contain the
query: its start 100 exceeds the query start 50.  Snapping shrinks the
query at the left edge of window coverage, refuting the claim that the
resolved region always contains the query. -/
theorem snapping_shrinks_counterexample :
    chromGrouped wsEdge ∧ chromSorted wsEdge ∧ windowsProper wsEdge ∧
      regEdge.start < regEdge.stop ∧
      indexFromInterval wsEdge regEdge = .ok (0, 1) ∧
      ¬ ((indicesToInterval wsEdge 0 1).start ≤ regEdge.start ∧
          regEdge.stop ≤ (indicesToInterval wsEdge 0 1).stop) := by
  decide

/-- C2 amended: snapping never shrinks provided the window set covers
both endpoints of the query, that is, some window of the query
chromosome contains the query start and some window reaches at least
to the query stop.  Under the same ordering hypotheses as C1, the
region produced by `indices_to_interval` from the indices of
`index_from_interval` then contains the query. -/
theorem indices_to_interval_contains_query (ws : List Window) (r : Region)
    (hsort : chromSorted ws)
    (a b : ℕ) (hok : indexFromInterval ws r = .ok (a, b))
    (hcovStart : ∃ i, i < ws.length ∧ (ws.getD i dWindow).chrom = r.chrom ∧
      (ws.getD i dWindow).start ≤ r.start ∧ r.start < (ws.getD i dWindow).stop)
    (hcovStop : ∃ j, j < ws.length ∧ (ws.getD j dWindow).chrom = r.chrom ∧
      (ws.getD j dWindow).start < r.stop ∧ r.stop ≤ (ws.getD j dWindow).stop) :
    (indicesToInterval ws a b).start ≤ r.start ∧
      r.stop ≤ (indicesToInterval ws a b).stop ∧
      (indicesToInterval ws a b).chrom = r.chrom := by
  obtain ⟨hlt, rest, heq, hb⟩ := indexFromInterval_ok hok
  have hpw : List.Pairwise (· < ·) (a :: rest) := by
    rw [← heq]; exact coveredWindows_sorted ws r
  have hmemIff : ∀ x : ℕ, x ∈ a :: rest ↔
      (x < ws.length ∧ windowInRegion (ws.getD x dWindow) r) := by
    intro x; rw [← heq]; exact mem_coveredWindows
  obtain ⟨i, hilen, hichrom, histart, histop⟩ := hcovStart
  obtain ⟨j, hjlen, hjchrom, hjstart, hjstop⟩ := hcovStop
  have hiMem : i ∈ a :: rest := (hmemIff i).mpr ⟨hilen, histop, by omega, hichrom⟩
  have hjMem : j ∈ a :: rest := (hmemIff j).mpr ⟨hjlen, by omega, hjstart, hjchrom⟩
  have haMem : a ∈ a :: rest := List.mem_cons_self a rest
  obtain ⟨halen, hasel⟩ := (hmemIff a).mp haMem
  obtain ⟨hastop, hastart, hachrom⟩ :
      r.start < (ws.getD a dWindow).stop ∧ (ws.getD a dWindow).start < r.stop ∧
        (ws.getD a dWindow).chrom = r.chrom := hasel
  set L := (a :: rest).getLast (List.cons_ne_nil a rest) with hL
  have hLmem : L ∈ a :: rest := List.getLast_mem _
  obtain ⟨hLlen, hLsel⟩ := (hmemIff L).mp hLmem
  obtain ⟨hLstop, hLstart, hLchrom⟩ :
      r.start < (ws.getD L dWindow).stop ∧ (ws.getD L dWindow).start < r.stop ∧
        (ws.getD L dWindow).chrom = r.chrom := hLsel
  have hai : a ≤ i := pairwise_lt_head_le hpw hiMem
  have hjL : j ≤ L := pairwise_lt_le_getLast hpw hjMem _
  -- the first covered window is exactly the window containing the query start
  have haeq : a = i := by
    rcases Nat.eq_or_lt_of_le hai with h | h
    · exact h
    · exfalso
      have : (ws.getD a dWindow).stop ≤ (ws.getD i dWindow).start :=
        hsort i hilen a h (by rw [hachrom, hichrom])
      omega
  -- the last covered window is exactly the window containing the query stop
  have hjeq : j = L := by
    rcases Nat.eq_or_lt_of_le hjL with h | h
    · exact h
    · exfalso
      have : (ws.getD j dWindow).stop ≤ (ws.getD L dWindow).start :=
        hsort L hLlen j h (by rw [hjchrom, hLchrom])
      omega
  have hbL : b - 1 = L := by omega
  refine ⟨?_, ?_, ?_⟩
  · show (ws.getD a dWindow).start ≤ r.start
    rw [haeq]; exact histart
  · show r.stop ≤ (ws.getD (b - 1) dWindow).stop
    rw [hbL, ← hjeq]; exact hjstop
  · exact hachrom

/-- Witness for C2 amended at the two-window scenario: the resolved
region equals the query `chr1:0-100000`, which trivially contains it. -/
theorem indices_to_interval_contains_query_witness :
    (∃ i, i < wsTwoBins.length ∧ (wsTwoBins.getD i dWindow).chrom = regTwoBins.chrom ∧
      (wsTwoBins.getD i dWindow).start ≤ regTwoBins.start ∧
      regTwoBins.start < (wsTwoBins.getD i dWindow).stop) ∧
    ((indicesToInterval wsTwoBins 0 2).start ≤ regTwoBins.start ∧
      regTwoBins.stop ≤ (indicesToInterval wsTwoBins 0 2).stop ∧
      (indicesToInterval wsTwoBins 0 2).chrom = regTwoBins.chrom) :=
  ⟨⟨0, by decide⟩,
   indices_to_interval_contains_query wsTwoBins regTwoBins
     (by decide) 0 2 (by decide)
     ⟨0, by decide⟩ ⟨1, by decide⟩⟩

lemma mem_sortedDedup {l : List ℕ} {x : ℕ} : x ∈ sortedDedup l ↔ x ∈ l := by
  unfold sortedDedup
  rw [(List.perm_insertionSort _ _).mem_iff, List.mem_dedup]

lemma mem_selectedRows {db : InteractionsDb} {chrom : String} {s t : ℕ} {row : DbRow} :
    row ∈ selectedRows db chrom s t ↔
      row ∈ db.tables chrom ∧ s ≤ row.x ∧ row.x ≤ t ∧ s ≤ row.y ∧ row.y ≤ t := by
  simp [selectedRows, List.mem_filter, and_assoc]

lemma rowLabels_getDataFromBins (db : InteractionsDb) (chrom : String) (s t : ℕ) :
    (getDataFromBins db chrom s t).rowLabels
      = sortedDedup ((selectedRows db chrom s t).map DbRow.x) := rfl

lemma colLabels_getDataFromBins (db : InteractionsDb) (chrom : String) (s t : ℕ) :
    (getDataFromBins db chrom s t).colLabels
      = sortedDedup ((selectedRows db chrom s t).map DbRow.y) := rfl

lemma flat_getDataFromBins (db : InteractionsDb) (chrom : String) (s t : ℕ) :
    (getDataFromBins db chrom s t).flat
      = (List.range
          ((sortedDedup ((selectedRows db chrom s t).map DbRow.x)).length *
           (sortedDedup ((selectedRows db chrom s t).map DbRow.y)).length)).map
        (fun k =>
          if k % ((sortedDedup ((selectedRows db chrom s t).map DbRow.x)).length + 1) == 0 &&
              decide (k < (sortedDedup ((selectedRows db chrom s t).map DbRow.x)).length *
                (sortedDedup ((selectedRows db chrom s t).map DbRow.x)).length) then none
          else pivotCell (selectedRows db chrom s t)
            ((sortedDedup ((selectedRows db chrom s t).map DbRow.x)).getD
              (k / (sortedDedup ((selectedRows db chrom s t).map DbRow.y)).length) 0)
            ((sortedDedup ((selectedRows db chrom s t).map DbRow.y)).getD
              (k % (sortedDedup ((selectedRows db chrom s t).map DbRow.y)).length) 0)) := rfl

/-- C9 counterexample: for the degenerate region chr1:5-5 the folder
store does not raise InvalidRegion before file I/O.  With an empty
folder the call performs the directory search and fails with
NoFilesError instead of InvalidRegion, and with one matching file the
InvalidRegion error is raised only after both the directory search
and the file load appear in the I/O trace. -/
theorem invalid_region_after_io_counterexample :
    regDegenerate.start = regDegenerate.stop ∧
    folderInteractions emptyFolder regDegenerate = ([.fileSearch], .error .noFiles) ∧
    (folderInteractions emptyFolder regDegenerate).2 ≠ .error .invalidRegion ∧
    folderInteractions oneFileFolder regDegenerate
      = ([.fileSearch, .fileLoad], .error .invalidRegion) :=
  ⟨by decide, by decide, by decide, by decide⟩

/-- C9 amended: an invalid region (start at or beyond stop) is always
rejected — the folder store never returns a matrix for it — and
whenever the chromosome file lookup succeeds, the result is exactly
the InvalidRegion error, raised only after the file search and file
load I/O steps; a failing lookup preempts the region check with its
own error. -/
theorem invalid_region_rejected_after_load (folder : My5CFolder) (r : Region)
    (h : ¬ r.start < r.stop) :
    (∀ out, (folderInteractions folder r).2 ≠ .ok out) ∧
    (∀ f, findChromFile folder r.chrom = .ok f →
      folderInteractions folder r = ([.fileSearch, .fileLoad], .error .invalidRegion)) := by
  constructor
  · intro out hout
    unfold folderInteractions at hout
    cases hf : findChromFile folder r.chrom with
    | error e =>
      rw [hf] at hout
      exact Except.noConfusion hout
    | ok f =>
      rw [hf] at hout
      have hout2 : getInteractions f.data r = .ok out := hout
      unfold getInteractions at hout2
      cases hidx : indexFromInterval f.data.windows r with
      | error e =>
        rw [hidx] at hout2
        exact Except.noConfusion hout2
      | ok p =>
        unfold indexFromInterval at hidx
        rw [if_neg h] at hidx
        exact Except.noConfusion hidx
  · intro f hf
    unfold folderInteractions
    rw [hf]
    show ([IOEvent.fileSearch, IOEvent.fileLoad], getInteractions f.data r) = _
    unfold getInteractions indexFromInterval
    rw [if_neg h]

/-- Witness for C9 amended at the one-file folder and the degenerate
region chr1:5-5. -/
theorem invalid_region_rejected_after_load_witness :
    (¬ regDegenerate.start < regDegenerate.stop) ∧
    ((∀ out, (folderInteractions oneFileFolder regDegenerate).2 ≠ .ok out) ∧
     (∀ f, findChromFile oneFileFolder regDegenerate.chrom = .ok f →
       folderInteractions oneFileFolder regDegenerate
         = ([.fileSearch, .fileLoad], .error .invalidRegion))) :=
  ⟨by decide, invalid_region_rejected_after_load oneFileFolder regDegenerate (by decide)⟩

/-- C8: the SQL retrieval selects exactly the stored rows whose x and
y indices both lie in the half-open range [s, t+1), where (s, t) is
the bin pair derived for the region by `bins_from_feature` (the SQL
between-bounds `>= s AND <= t` coincide with the half-open range with
the exclusive upper bound t+1, the form the specification uses); in
particular no row with an index at or beyond t+1 is selected. -/
theorem db_retrieval_selects_half_open (db : InteractionsDb) (f : Region)
    (chrom : String) (s t : ℕ)
    (_hb : binsFromFeature db f = some (chrom, s, t)) :
    ∀ row, row ∈ selectedRows db chrom s t ↔
      (row ∈ db.tables chrom ∧ s ≤ row.x ∧ row.x < t + 1 ∧ s ≤ row.y ∧ row.y < t + 1) := by
  intro row
  rw [mem_selectedRows]
  constructor
  · rintro ⟨h0, h1, h2, h3, h4⟩
    exact ⟨h0, h1, by omega, h3, by omega⟩
  · rintro ⟨h0, h1, h2, h3, h4⟩
    exact ⟨h0, h1, by omega, h3, by omega⟩

/-- Witness for C8 at the sparse example store: the query chr1:0-250
resolves to bins (0, 2) and the selection is characterized by the
half-open range [0, 3). -/
theorem db_retrieval_selects_half_open_witness :
    binsFromFeature dbSparse regDb = some ("chr1", 0, 2) ∧
      (∀ row, row ∈ selectedRows dbSparse "chr1" 0 2 ↔
        (row ∈ dbSparse.tables "chr1" ∧ 0 ≤ row.x ∧ row.x < 2 + 1 ∧
          0 ≤ row.y ∧ row.y < 2 + 1)) :=
  ⟨by decide, db_retrieval_selects_half_open dbSparse regDb "chr1" 0 2 (by decide)⟩

/-- C3 counterexample: in the sparse store the pair (1, 1) lies inside
the requested bin range [0, 2] and has no stored row, yet it does not
appear in the returned matrix as the NaN sentinel — it does not appear
at all, because the unstack pivot creates rows and columns only for
index values that occur in some selected row, and bin 1 occurs in
none. -/
theorem absent_bin_pair_missing_counterexample :
    binsFromFeature dbSparse regDb = some ("chr1", 0, 2) ∧
    (∀ row ∈ dbSparse.tables "chr1", ¬(row.x = 1 ∧ row.y = 1)) ∧
    (0 ≤ 1 ∧ 1 ≤ 2) ∧
    pivotLookup (getDataFromBins dbSparse "chr1" 0 2) 1 1 = none ∧
    pivotLookup (getDataFromBins dbSparse "chr1" 0 2) 1 1 ≠ some none :=
  ⟨by decide, by decide, by decide, by decide, by decide⟩

/-- C3 amended: every (x, y) pair with no stored row in the chromosome
table whose x occurs among the row labels and whose y occurs among the
column labels of the pivot is represented in the returned matrix by
the NaN sentinel, never by zero or any other numeric default.  (Label
membership implies the pair is inside the requested range, since
labels are drawn from the selected rows; pairs whose x or y occurs in
no selected row are absent from the matrix entirely, see the C10
theorems.) -/
theorem absent_pair_is_nan (db : InteractionsDb) (chrom : String) (s t x y : ℕ)
    (habsent : ∀ row ∈ db.tables chrom, ¬(row.x = x ∧ row.y = y))
    (hxlab : x ∈ (getDataFromBins db chrom s t).rowLabels)
    (hylab : y ∈ (getDataFromBins db chrom s t).colLabels) :
    pivotLookup (getDataFromBins db chrom s t) x y = some none := by
  have hx' : x ∈ sortedDedup ((selectedRows db chrom s t).map DbRow.x) := hxlab
  have hy' : y ∈ sortedDedup ((selectedRows db chrom s t).map DbRow.y) := hylab
  unfold pivotLookup
  rw [if_pos ⟨hxlab, hylab⟩]
  rw [rowLabels_getDataFromBins, colLabels_getDataFromBins, flat_getDataFromBins]
  set sel := selectedRows db chrom s t with hsel
  set xs := sortedDedup (sel.map DbRow.x) with hxs
  set ys := sortedDedup (sel.map DbRow.y) with hys
  have hi : xs.indexOf x < xs.length := List.indexOf_lt_length.mpr hx'
  have hj : ys.indexOf y < ys.length := List.indexOf_lt_length.mpr hy'
  have hC : 0 < ys.length := by omega
  have hk : xs.indexOf x * ys.length + ys.indexOf y < xs.length * ys.length := by
    have h1 : xs.indexOf x * ys.length + ys.indexOf y < (xs.indexOf x + 1) * ys.length := by
      have : (xs.indexOf x + 1) * ys.length = xs.indexOf x * ys.length + ys.length := by ring
      omega
    have h2 : (xs.indexOf x + 1) * ys.length ≤ xs.length * ys.length :=
      Nat.mul_le_mul_right _ (by omega)
    omega
  rw [List.getElem?_map, List.getElem?_range hk]
  have hdiv : (xs.indexOf x * ys.length + ys.indexOf y) / ys.length = xs.indexOf x := by
    rw [Nat.mul_comm (xs.indexOf x) ys.length, Nat.mul_add_div hC,
      Nat.div_eq_of_lt hj, Nat.add_zero]
  have hmod : (xs.indexOf x * ys.length + ys.indexOf y) % ys.length = ys.indexOf y := by
    rw [Nat.mul_add_mod', Nat.mod_eq_of_lt hj]
  have hgetx : xs.getD (xs.indexOf x) 0 = x := by
    rw [List.getD_eq_getElem xs 0 hi]
    exact List.getElem_indexOf hi
  have hgety : ys.getD (ys.indexOf y) 0 = y := by
    rw [List.getD_eq_getElem ys 0 hj]
    exact List.getElem_indexOf hj
  have hcell : pivotCell sel x y = none := by
    unfold pivotCell
    have hfind : sel.find? (fun row => row.x == x && row.y == y) = none := by
      rw [List.find?_eq_none]
      intro row hrow
      have hmem : row ∈ db.tables chrom := (mem_selectedRows.mp hrow).1
      simp only [Bool.and_eq_true, beq_iff_eq, not_and]
      intro h1 h2
      exact habsent row hmem ⟨h1, h2⟩
    rw [hfind]
    rfl
  simp only [Option.map_some']
  rw [hdiv, hmod, hgetx, hgety, hcell]
  split <;> rfl

/-- Witness for C3 amended at the sparse example store: the pair
(0, 2) has no stored row, yet both 0 and 2 occur as labels, and the
matrix holds the NaN sentinel there. -/
theorem absent_pair_is_nan_witness :
    (∀ row ∈ dbSparse.tables "chr1", ¬(row.x = 0 ∧ row.y = 2)) ∧
    pivotLookup (getDataFromBins dbSparse "chr1" 0 2) 0 2 = some none :=
  ⟨by decide,
   absent_pair_is_nan dbSparse "chr1" 0 2 0 2 (by decide) (by decide) (by decide)⟩

/-- C10: the pivot matrix has exactly one row label per distinct x
index and one column label per distinct y index occurring among the
selected stored rows; an index occurring in no selected row
contributes no row and no column.  Concretely, for the store `dbRect`
whose bin 1 never occurs as an x index over the resolved bin range
[0, 2] (three bins, resolved region chr1:0-300), the matrix has only
2 row labels, and the flat N+1-stride masking then hits the
off-diagonal stored cell (x=2, y=0) — erasing its stored value 13 to
NaN — while leaving the true diagonal cell (x=2, y=2) with its stored
value 15. -/
theorem pivot_labels_from_rows_and_stride_mismatch :
    (∀ (db : InteractionsDb) (chrom : String) (s t : ℕ),
      ((getDataFromBins db chrom s t).rowLabels
          = sortedDedup ((selectedRows db chrom s t).map DbRow.x) ∧
        (getDataFromBins db chrom s t).colLabels
          = sortedDedup ((selectedRows db chrom s t).map DbRow.y)) ∧
      ∀ z, (∀ row ∈ selectedRows db chrom s t, row.x ≠ z ∧ row.y ≠ z) →
        z ∉ (getDataFromBins db chrom s t).rowLabels ∧
        z ∉ (getDataFromBins db chrom s t).colLabels) ∧
    (binsFromFeature dbRect regDb = some ("chr1", 0, 2) ∧
      featureFromBins dbRect "chr1" 0 2 = some ⟨"chr1", 0, 300⟩ ∧
      (getDataFromBins dbRect "chr1" 0 2).rowLabels.length = 2 ∧
      2 < 2 - 0 + 1 ∧
      (⟨2, 0, 13⟩ : DbRow) ∈ selectedRows dbRect "chr1" 0 2 ∧
      pivotLookup (getDataFromBins dbRect "chr1" 0 2) 2 0 = some none ∧
      pivotLookup (getDataFromBins dbRect "chr1" 0 2) 2 2 = some (some 15)) := by
  constructor
  · intro db chrom s t
    refine ⟨⟨rfl, rfl⟩, ?_⟩
    intro z hz
    constructor
    · rw [rowLabels_getDataFromBins]
      intro hmem
      obtain ⟨row, hrow, hrx⟩ := List.mem_map.mp (mem_sortedDedup.mp hmem)
      exact (hz row hrow).1 hrx
    · rw [colLabels_getDataFromBins]
      intro hmem
      obtain ⟨row, hrow, hry⟩ := List.mem_map.mp (mem_sortedDedup.mp hmem)
      exact (hz row hrow).2 hry
  · exact ⟨by decide, by decide, by decide, by decide, by decide, by decide, by decide⟩

/-- Witness for C10, instantiating the universal part at the sparse
store and the absent bin 1: bin 1 contributes no row and no column
label. -/
theorem pivot_labels_from_rows_witness :
    (∀ row ∈ selectedRows dbSparse "chr1" 0 2, row.x ≠ 1 ∧ row.y ≠ 1) ∧
    (1 ∉ (getDataFromBins dbSparse "chr1" 0 2).rowLabels ∧
      1 ∉ (getDataFromBins dbSparse "chr1" 0 2).colLabels) :=
  ⟨by decide,
   (pivot_labels_from_rows_and_stride_mismatch.1 dbSparse "chr1" 0 2).2 1 (by decide)⟩

lemma fillDiagonalAux_getD (step : ℕ) :
    ∀ (l : List Val) (idx k : ℕ),
      (fillDiagonalAux step idx l).getD k none
        = if (idx + k) % step = 0 then none else l.getD k none := by
  intro l
  induction l with
  | nil =>
    intro idx k
    simp only [fillDiagonalAux]
    split <;> rfl
  | cons v rest ih =>
    intro idx k
    cases k with
    | zero =>
      simp only [fillDiagonalAux, List.getD_cons_zero, Nat.add_zero]
    | succ k2 =>
      simp only [fillDiagonalAux, List.getD_cons_succ]
      rw [ih (idx + 1) k2]
      have harith : idx + 1 + k2 = idx + (k2 + 1) := by omega
      rw [harith]

/-- A flat index i*n + j with i, j < n is divisible by n+1 exactly on
the true diagonal i = j. -/
lemma diag_index_iff {n i j : ℕ} (hi : i < n) (hj : j < n) :
    (i * n + j) % (n + 1) = 0 ↔ i = j := by
  constructor
  · intro h
    have hdvd : ((n : ℤ) + 1) ∣ ((i : ℤ) * n + j) := by
      have h1 : (n + 1) ∣ (i * n + j) := Nat.dvd_of_mod_eq_zero h
      exact_mod_cast Int.natCast_dvd_natCast.mpr h1
    have h2 : ((n : ℤ) + 1) ∣ ((j : ℤ) - i) := by
      have h3 : ((j : ℤ) - i) = ((i : ℤ) * n + j) - (i * ((n : ℤ) + 1)) := by ring
      rw [h3]
      exact dvd_sub hdvd (dvd_mul_left _ _)
    have h4 : (j : ℤ) - i = 0 := by
      apply Int.eq_zero_of_abs_lt_dvd h2
      rw [abs_lt]
      constructor <;> [skip; skip] <;> omega
    omega
  · rintro rfl
    have h5 : i * n + i = i * (n + 1) := by ring
    rw [h5, Nat.mul_mod_left]

/-- C7: on a square n-by-n matrix (flattened row-major), the diagonal
fill used by `SquareInteractionsTrack._plot` sets every diagonal cell
(i, i) to the NaN sentinel and leaves every off-diagonal cell
unchanged — the flat-stride write touches no other cell. -/
theorem fill_diagonal_only_diagonal (m : List Val) (n : ℕ) (_hlen : m.length = n * n)
    (i j : ℕ) (hi : i < n) (hj : j < n) :
    getCell (fillDiagonal m n) n i j = if i = j then none else getCell m n i j := by
  unfold fillDiagonal getCell
  rw [fillDiagonalAux_getD]
  rw [Nat.zero_add]
  by_cases hij : i = j
  · rw [if_pos ((diag_index_iff hi hj).mpr hij), if_pos hij]
  · rw [if_neg (fun hc => hij ((diag_index_iff hi hj).mp hc)), if_neg hij]

/-- Witness for C7 on a concrete 2-by-2 matrix: the off-diagonal cell
(0, 1) is unchanged by the diagonal fill. -/
theorem fill_diagonal_only_diagonal_witness :
    ([some 1, some 2, some 3, some 4] : List Val).length = 2 * 2 ∧
    getCell (fillDiagonal [some 1, some 2, some 3, some 4] 2) 2 0 1
      = if (0 : ℕ) = 1 then none else getCell [some 1, some 2, some 3, some 4] 2 0 1 :=
  ⟨by decide,
   fill_diagonal_only_diagonal [some 1, some 2, some 3, some 4] 2 (by decide)
     0 1 (by decide) (by decide)⟩

/-- C4 counterexample: the bias of 100 does not make zero an
impossible data value for every finite input: the legitimate finite
data value -100 is biased to exactly 0, so a pixel that carries it
faithfully through resampling is misclassified as rotation background
and ends as the NaN sentinel instead of the value -100. -/
theorem rotate_bias_misclassifies_counterexample :
    biasCell (some (-100)) = some 0 ∧
    rotateFinalize (.resampled (biasCell (some (-100)))) = none ∧
    rotateFinalize (.resampled (biasCell (some (-100)))) ≠ some (-100) := by
  have hb : biasCell (some (-100)) = some 0 := by
    simp only [biasCell, heatmapBias, Option.map_some']
    norm_num
  refine ⟨hb, ?_, ?_⟩
  · rw [hb]
    show unbiasCell (some 0) = none
    simp [unbiasCell]
  · rw [hb]
    show unbiasCell (some 0) ≠ some (-100)
    simp [unbiasCell]

/-- C4 amended: for every finite data value other than -100, on a
pixel that the resampler reproduces exactly, the biased value is
nonzero, so after rotation the pixel is not mistaken for background
and subtracting the bias restores the original value — legitimate
zeros included; a genuine background pixel reads as 0 and is restored
to the NaN sentinel, and a NaN pixel stays NaN. -/
theorem rotate_bias_roundtrip (v : ℚ) (hv : v ≠ -100) :
    rotateFinalize (.resampled (biasCell (some v))) = some v ∧
    rotateFinalize .background = none ∧
    rotateFinalize (.resampled none) = none := by
  refine ⟨?_, rfl, rfl⟩
  have h1 : v + (100 : ℚ) ≠ 0 := fun h => hv (by linarith)
  simp only [rotateFinalize, renderPixel, biasCell, unbiasCell, heatmapBias,
    Option.map_some']
  rw [if_neg h1]
  have h2 : v + (100 : ℚ) - 100 = v := by ring
  rw [h2]

/-- Witness for C4 amended at the legitimate data value 0: it is
biased to 100, survives the zero test, and is restored to 0. -/
theorem rotate_bias_roundtrip_witness :
    ((0 : ℚ) ≠ -100) ∧
    (rotateFinalize (.resampled (biasCell (some 0))) = some 0 ∧
      rotateFinalize .background = none ∧
      rotateFinalize (.resampled none) = none) :=
  ⟨by decide, rotate_bias_roundtrip 0 (by decide)⟩

/-- C5: percentile clipping is idempotent: for every matrix with at
least one finite value and every percentile, a second application
with the same percentile is a no-op — it returns the identical matrix
and the identical vmin/vmax extrema, because the clipping stage never
modifies the data array, so the second application recomputes the
same percentiles over the same finite values. -/
theorem clip_for_plotting_idempotent (A : List Val) (st : NormState) (q : ℚ)
    (hfin : finiteVals A ≠ []) :
    clipForPlotting (clipForPlotting (A, st) q) q = clipForPlotting (A, st) q := by
  have hA : 0 < A.length := by
    rcases A with _ | ⟨v, rest⟩
    · simp [finiteVals] at hfin
    · simp
  unfold clipForPlotting autoscaleNone
  simp only [if_pos hA]

/-- Witness for C5 on a concrete matrix holding two finite values and
one NaN. -/
theorem clip_for_plotting_idempotent_witness :
    finiteVals [some 1, none, some 5] ≠ [] ∧
    clipForPlotting (clipForPlotting (([some 1, none, some 5] : List Val),
        (⟨none, none⟩ : NormState)) 5) 5
      = clipForPlotting (([some 1, none, some 5] : List Val),
        (⟨none, none⟩ : NormState)) 5 :=
  ⟨by decide, clip_for_plotting_idempotent [some 1, none, some 5] ⟨none, none⟩ 5 (by decide)⟩

lemma getAxesFrames_length : ∀ (configs : List ℕ) (start : ℕ),
    (getAxesFrames start configs).length = configs.length := by
  intro configs
  induction configs with
  | nil => intro start; rfl
  | cons c rest ih =>
    intro start
    simp only [getAxesFrames, List.length_cons, ih]

lemma getAxesFrames_getD : ∀ (configs : List ℕ) (start i : ℕ), i < configs.length →
    (getAxesFrames start configs).getD i (0, 0)
      = (start + (configs.take i).sum, configs.getD i 0) := by
  intro configs
  induction configs with
  | nil => intro start i h; cases h
  | cons c rest ih =>
    intro start i h
    cases i with
    | zero => simp [getAxesFrames]
    | succ i2 =>
      simp only [getAxesFrames, List.getD_cons_succ, List.take_succ_cons,
        List.sum_cons]
      rw [ih (start + c) i2 (by simpa using h)]
      have harith : start + c + (rest.take i2).sum = start + (c + (rest.take i2).sum) := by
        omega
      rw [harith]

/-- C6: layout allocation is exact: the total grid height equals the
sum of the declared row counts, there is one frame per declaration,
and frame i is (rowOffset, rowSpan) with rowOffset the sum of the
preceding declarations (zero gap, declaration order) and rowSpan the
declaration itself. -/
theorem layout_allocation_exact (configs : List ℕ) :
    (getAxes configs).1 = configs.sum ∧
    (getAxes configs).2.length = configs.length ∧
    ∀ i, i < configs.length →
      (getAxes configs).2.getD i (0, 0) = ((configs.take i).sum, configs.getD i 0) := by
  refine ⟨rfl, getAxesFrames_length configs 0, ?_⟩
  intro i h
  have := getAxesFrames_getD configs 0 i h
  simpa using this

/-- Witness for C6 at the declarations [2, 4, 1] of the
specification: total 7, frames [(0,2), (2,4), (6,1)], and the general
characterization instantiated at the last track. -/
theorem layout_allocation_exact_witness :
    (getAxes [2, 4, 1]).1 = 7 ∧
    (getAxes [2, 4, 1]).2 = [(0, 2), (2, 4), (6, 1)] ∧
    2 < ([2, 4, 1] : List ℕ).length ∧
    (getAxes [2, 4, 1]).2.getD 2 (0, 0)
      = ((([2, 4, 1] : List ℕ).take 2).sum, ([2, 4, 1] : List ℕ).getD 2 0) :=
  ⟨by decide, by decide, by decide,
   (layout_allocation_exact [2, 4, 1]).2.2 2 (by decide)⟩

end EIYBrowse
